import Mathlib

/-!
Verification of the two custom hooks of the lab-2-customhooks repository:
the pagination calculator (src/hooks/usePagination.ts) and the value
debouncer (src/hooks/useDebounce.ts).  Machine integers of the TypeScript
source are modelled as `ℤ` (the inputs in scope are small integers, far
from any floating-point rounding), times and timer ids as `ℕ`.
-/

namespace UsePagination

/-- Integer ceiling division.  Models the TypeScript expression
`Math.ceil(totalItems / itemsPerPage)` from usePagination.ts for an
integer numerator and a positive integer divisor: since `Int` division
is floor division, the ceiling of `a / b` is `-((-a) / b)`.  The lemma
`ceilDiv_eq_ceil` below proves this equals the true rational ceiling. -/
def ceilDiv (a b : ℤ) : ℤ := -(-a / b)

/-- State of one usePagination hook instance: the two props
(`totalItems`, `itemsPerPage`) together with the `useState`-held
`currentPage`.  All derived fields are recomputed from this state. -/
structure PaginationState where
  totalItems : ℤ
  itemsPerPage : ℤ
  currentPage : ℤ
  deriving DecidableEq

/-- Construction of the hook: `useState<number>(Math.max(1, initialPage))`
initializes `currentPage`; the props are stored as given. -/
def initPagination (totalItems itemsPerPage initialPage : ℤ) : PaginationState :=
  { totalItems := totalItems, itemsPerPage := itemsPerPage,
    currentPage := max 1 initialPage }

/-- Derived: `Math.max(1, Math.ceil(totalItems / itemsPerPage))`. -/
def totalPages (s : PaginationState) : ℤ :=
  max 1 (ceilDiv s.totalItems s.itemsPerPage)

/-- Derived: `(currentPage - 1) * itemsPerPage`. -/
def startIndex (s : PaginationState) : ℤ :=
  (s.currentPage - 1) * s.itemsPerPage

/-- Derived: `Math.min(startIndex + itemsPerPage, totalItems)`. -/
def endIndex (s : PaginationState) : ℤ :=
  min (startIndex s + s.itemsPerPage) s.totalItems

/-- Derived: `endIndex - startIndex`. -/
def itemsOnCurrentPage (s : PaginationState) : ℤ :=
  endIndex s - startIndex s

/-- Derived flag: `currentPage > 1`. -/
def canPrevPage (s : PaginationState) : Bool :=
  decide (1 < s.currentPage)

/-- Derived flag: `currentPage < totalPages`. -/
def canNextPage (s : PaginationState) : Bool :=
  decide (s.currentPage < totalPages s)

/-- The `setPage` operation:
`setCurrentPage(Math.max(1, Math.min(page, totalPages)))`. -/
def setPage (s : PaginationState) (page : ℤ) : PaginationState :=
  { s with currentPage := max 1 (min page (totalPages s)) }

/-- The `nextPage` operation: `if (canNextPage) setCurrentPage(prev => prev + 1)`. -/
def nextPage (s : PaginationState) : PaginationState :=
  if canNextPage s then { s with currentPage := s.currentPage + 1 } else s

/-- The `prevPage` operation: `if (canPrevPage) setCurrentPage(prev => prev - 1)`. -/
def prevPage (s : PaginationState) : PaginationState :=
  if canPrevPage s then { s with currentPage := s.currentPage - 1 } else s

/-- A re-render with changed props: the caller supplies new `totalItems`
and `itemsPerPage`; the `useState`-held `currentPage` is untouched
(no code path re-clamps it when props change). -/
def updateInputs (s : PaginationState) (totalItems itemsPerPage : ℤ) : PaginationState :=
  { s with totalItems := totalItems, itemsPerPage := itemsPerPage }

end UsePagination

namespace UseDebounce

/-!
Two views of useDebounce.ts are modelled.

`DebounceWorld` is the fine-grained view: it keeps the host
environment's live-timer queue explicitly (`timers`), the hook's saved
`setTimeout` handle (`handler`), and the mount flag, so that the
cancellation discipline of the effect cleanup (`clearTimeout(handler)`)
can be verified as an invariant over arbitrary event interleavings.

`DebounceState` is the single-timer view used for the settling
theorem: the timer queue is collapsed to the one pending timer that the
cancellation invariant (proved on `DebounceWorld`) guarantees, and runs
are executed deterministically in time order.
-/

/-- Fine-grained state: the hook's `useState` cell (`debouncedValue`),
the effect's saved `setTimeout` handle (`handler`), the host timer
queue restricted to this hook's live timers (`timers`, entries are
`(id, fireTime, value)`), a fresh-id counter for `setTimeout`, and
whether the owning component is still mounted. -/
structure DebounceWorld (α : Type) where
  debouncedValue : α
  handler : Option ℕ
  nextId : ℕ
  timers : List (ℕ × ℕ × α)
  mounted : Bool
  deriving DecidableEq

/-- First render of `useDebounce(value, delay)`:
`useState<T>(value)` seeds `debouncedValue` with the initial input;
no timer exists yet (the first effect has not run). -/
def initialRender (α : Type) (value : α) : DebounceWorld α :=
  { debouncedValue := value, handler := none, nextId := 0,
    timers := [], mounted := true }

/-- Events delivered to one hook instance: an effect run after `value`
or `delay` changed (at `time`, carrying the new `value` and `delay`),
the host attempting to fire the timer with a given id, and unmount. -/
inductive DebounceEv (α : Type) where
  | change (time : ℕ) (value : α) (delay : ℕ)
  | fire (id : ℕ)
  | unmount
  deriving DecidableEq

/-- The effect cleanup `clearTimeout(handler)`: the saved handle's
timer, if still live, is removed from the host queue. -/
def clearHandler {α : Type} (w : DebounceWorld α) : DebounceWorld α :=
  match w.handler with
  | some h => { w with timers := w.timers.filter (fun e => decide (e.1 ≠ h)) }
  | none => w

/-- One step of the fine-grained model.

A `change` while mounted runs the cleanup of the previous effect and
then the new effect body: `clearTimeout` of the saved handle, then
`setTimeout(() => setDebouncedValue(value), delay)` which appends a
fresh timer and saves its id.  A `fire id` event mutates
`debouncedValue` only if the timer with that id is still live in the
queue (a cleared timer is gone, so firing it does nothing), and
consumes the timer.  `unmount` runs the final cleanup and drops the
mount flag; an unmounted hook receives no further effect runs. -/
def step {α : Type} (w : DebounceWorld α) : DebounceEv α → DebounceWorld α
  | .change time value delay =>
    if w.mounted then
      let w1 := clearHandler w
      { w1 with
        timers := w1.timers ++ [(w1.nextId, time + delay, value)],
        handler := some w1.nextId,
        nextId := w1.nextId + 1 }
    else w
  | .fire id =>
    match w.timers.find? (fun e => decide (e.1 = id)) with
    | some e =>
      { w with debouncedValue := e.2.2,
               timers := w.timers.filter (fun x => decide (x.1 ≠ id)) }
    | none => w
  | .unmount =>
    if w.mounted then
      { clearHandler w with mounted := false, handler := none }
    else w

/-- Folding `step` over an event list. -/
def run {α : Type} (w : DebounceWorld α) : List (DebounceEv α) → DebounceWorld α
  | [] => w
  | e :: es => run (step w e) es

/-- Cancellation invariant of the fine-grained model: every live timer
in the queue is the one saved in `handler`, (hence) at most one timer
is live, and after unmount the queue is empty. -/
def TimerInv {α : Type} (w : DebounceWorld α) : Prop :=
  (∀ e ∈ w.timers, some e.1 = w.handler) ∧ w.timers.length ≤ 1 ∧
  (w.mounted = false → w.timers = [])

/-- Single-timer view of one useDebounce instance: the `useState` cell
and the at-most-one pending `setTimeout` as `(fireTime, value)`. -/
structure DebounceState (α : Type) where
  debouncedValue : α
  pendingTimer : Option (ℕ × α)
  deriving DecidableEq

/-- Mount of `useDebounce(value0, delay)` at time `t0`: `useState`
seeds `debouncedValue := value0` and the first effect schedules the
timer `(t0 + delay, value0)`. -/
def initDebounce {α : Type} (t0 : ℕ) (v0 : α) (d : ℕ) : DebounceState α :=
  { debouncedValue := v0, pendingTimer := some (t0 + d, v0) }

/-- Deliver the pending timer if it is due at time `t`: a timer whose
fire time has arrived fires before an event at `t` is processed,
assigning its captured value to `debouncedValue`.  Returns the new
state and the list of observations `(fireTime, value)` made. -/
def fireDue {α : Type} (s : DebounceState α) (t : ℕ) : DebounceState α × List (ℕ × α) :=
  match s.pendingTimer with
  | some ft =>
    if ft.1 ≤ t then ({ debouncedValue := ft.2, pendingTimer := none }, [ft])
    else (s, [])
  | none => (s, [])

/-- An input change at time `t` to value `v` (with delay `d`): any
timer already due fires first; then the effect cleanup cancels the
pending timer and the effect schedules `(t + d, v)` in its place. -/
def applyChange {α : Type} (s : DebounceState α) (t : ℕ) (v : α) (d : ℕ) :
    DebounceState α × List (ℕ × α) :=
  let p := fireDue s t
  ({ p.1 with pendingTimer := some (t + d, v) }, p.2)

/-- Execute a time-ordered list of changes `(time, value)`,
accumulating all observations of the settled value. -/
def runChanges {α : Type} (s : DebounceState α) (d : ℕ) :
    List (ℕ × α) → DebounceState α × List (ℕ × α)
  | [] => (s, [])
  | c :: cs =>
    let p := applyChange s c.1 c.2 d
    let q := runChanges p.1 d cs
    (q.1, p.2 ++ q.2)

/-- Let all remaining time pass with no further change: the pending
timer, if any, fires uncanceled. -/
def quiesce {α : Type} (s : DebounceState α) : DebounceState α × List (ℕ × α) :=
  match s.pendingTimer with
  | some ft => ({ debouncedValue := ft.2, pendingTimer := none }, [ft])
  | none => (s, [])

/-- A burst of changes each of which happens strictly after, and
strictly within `d` of, the previous one (the anchor `t0` being the
previous change, initially the mount). -/
def withinChain {α : Type} (t0 d : ℕ) : List (ℕ × α) → Bool
  | [] => true
  | c :: cs => decide (t0 < c.1) && decide (c.1 < t0 + d) && withinChain c.1 d cs

end UseDebounce

namespace UsePagination

/-- For a positive divisor, `ceilDiv` is the ceiling of the exact
rational quotient, which is what `Math.ceil` computes on this domain. -/
lemma ceilDiv_eq_ceil (a b : ℤ) (hb : 0 < b) :
    ceilDiv a b = ⌈(a : ℚ) / (b : ℚ)⌉ := by
  have hbn : ((b.toNat : ℕ) : ℤ) = b := Int.toNat_of_nonneg hb.le
  have hfl : ⌊((-a : ℤ) : ℚ) / ((b.toNat : ℕ) : ℚ)⌋ = -a / b := by
    rw [Rat.floor_intCast_div_natCast, hbn]
  have hcast : ((b.toNat : ℕ) : ℚ) = (b : ℚ) := by exact_mod_cast hbn
  rw [hcast] at hfl
  have hneg : ((-a : ℤ) : ℚ) = -(a : ℚ) := by push_cast; ring
  rw [hneg, neg_div, Int.floor_neg] at hfl
  unfold ceilDiv
  rw [← hfl, neg_neg]

/-- The derived page count is at least 1. -/
lemma one_le_totalPages (s : PaginationState) : 1 ≤ totalPages s :=
  le_max_left _ _

/-- Division-algorithm bounds on the derived page count: `totalPages`
pages cover all items, and all pages but the last one start within the
item range. -/
lemma totalPages_mul_bounds (s : PaginationState)
    (hti : 0 ≤ s.totalItems) (hipp : 1 ≤ s.itemsPerPage) :
    s.totalItems ≤ totalPages s * s.itemsPerPage ∧
    (totalPages s - 1) * s.itemsPerPage ≤ s.totalItems := by
  set ti := s.totalItems
  set ipp := s.itemsPerPage
  have hipp0 : ipp ≠ 0 := by omega
  have hdm : ipp * (-ti / ipp) + -ti % ipp = -ti := Int.ediv_add_emod (-ti) ipp
  have hr0 : 0 ≤ -ti % ipp := Int.emod_nonneg (-ti) hipp0
  have hrlt : -ti % ipp < ipp := Int.emod_lt_of_pos (-ti) (by omega)
  have htp : totalPages s = max 1 (-(-ti / ipp)) := rfl
  set q := -ti / ipp
  set r := -ti % ipp
  have hqr : -q * ipp = ti + r := by
    have h : ipp * q = -ti - r := by linarith [hdm]
    nlinarith [h]
  constructor
  · have h1 : -q ≤ max 1 (-q) := le_max_right _ _
    have h2 : -q * ipp ≤ max 1 (-q) * ipp :=
      mul_le_mul_of_nonneg_right h1 (by omega)
    rw [htp]
    linarith [h2, hqr, hr0]
  · rcases max_cases 1 (-q) with ⟨hmax, _⟩ | ⟨hmax, _⟩
    · rw [htp, hmax]
      simpa using hti
    · rw [htp, hmax]
      have h4 : (-q - 1) * ipp = -q * ipp - ipp := by ring
      linarith [hqr, h4, hrlt]

/-- C1 counterexample: with `totalItems = 0`, `itemsPerPage = 1`,
`initialPage = 5` (a domain-valid input), the constructed state has
`currentPage = 5` but `totalPages = 1`, so the freshly constructed
`currentPage` is NOT bounded above by `totalPages` — initialization
applies only the lower clamp `max(1, initialPage)`. -/
theorem initPagination_currentPage_can_exceed_totalPages :
    0 ≤ (0 : ℤ) ∧ 1 ≤ (1 : ℤ) ∧
    (initPagination 0 1 5).currentPage = 5 ∧
    totalPages (initPagination 0 1 5) = 1 ∧
    ¬ ((initPagination 0 1 5).currentPage ≤ totalPages (initPagination 0 1 5)) := by
  decide

/-- C1 (amended): at initialization any integer `initialPage` is
accepted and `currentPage` is set to `max(1, initialPage)` — clamped
below by 1 only.  No upper clamp by `totalPages` is applied, so the
initial `currentPage` lies in `[1, totalPages]` exactly when
`initialPage ≤ totalPages`. -/
theorem initPagination_clamped_below_only (ti ipp ip : ℤ)
    (_hti : 0 ≤ ti) (_hipp : 1 ≤ ipp) :
    1 ≤ (initPagination ti ipp ip).currentPage ∧
    (initPagination ti ipp ip).currentPage = max 1 ip ∧
    ((initPagination ti ipp ip).currentPage ≤ totalPages (initPagination ti ipp ip) ↔
      ip ≤ totalPages (initPagination ti ipp ip)) := by
  refine ⟨le_max_left _ _, rfl, ?_⟩
  have h1 : 1 ≤ totalPages (initPagination ti ipp ip) := one_le_totalPages _
  constructor
  · intro h
    exact le_trans (le_max_right 1 ip) h
  · intro h
    exact max_le h1 h

/-- C1 witness: the amended statement instantiated at
`totalItems = 0, itemsPerPage = 1, initialPage = 5`. -/
theorem initPagination_clamped_below_only_witness :
    1 ≤ (initPagination 0 1 5).currentPage ∧
    (initPagination 0 1 5).currentPage = max 1 5 ∧
    ((initPagination 0 1 5).currentPage ≤ totalPages (initPagination 0 1 5) ↔
      (5 : ℤ) ≤ totalPages (initPagination 0 1 5)) :=
  initPagination_clamped_below_only 0 1 5 (by decide) (by decide)

/-- C3: for `totalItems ≥ 0` and `itemsPerPage ≥ 1`, the derived
`totalPages` equals `max(1, ceil(totalItems / itemsPerPage))` with
`ceil` the true rational ceiling, and `totalPages = 1` when
`totalItems = 0`. -/
theorem totalPages_eq_max_one_ceil (s : PaginationState)
    (_hti : 0 ≤ s.totalItems) (hipp : 1 ≤ s.itemsPerPage) :
    totalPages s = max 1 ⌈(s.totalItems : ℚ) / (s.itemsPerPage : ℚ)⌉ ∧
    (s.totalItems = 0 → totalPages s = 1) := by
  constructor
  · unfold totalPages
    rw [ceilDiv_eq_ceil _ _ (by omega)]
  · intro h0
    have hz : ceilDiv s.totalItems s.itemsPerPage = 0 := by
      unfold ceilDiv
      rw [h0]
      simp
    unfold totalPages
    rw [hz]
    decide

/-- C3 witness: the demo configuration, 47 items at 10 per page. -/
theorem totalPages_eq_max_one_ceil_witness :
    totalPages ⟨47, 10, 1⟩ = max 1 ⌈(47 : ℚ) / (10 : ℚ)⌉ ∧
    ((47 : ℤ) = 0 → totalPages ⟨47, 10, 1⟩ = 1) :=
  totalPages_eq_max_one_ceil ⟨47, 10, 1⟩ (by decide) (by decide)

/-- C4: for `totalItems ≥ 0`, `itemsPerPage ≥ 1` and a valid
`currentPage` in `[1, totalPages]`, the derived slice boundaries
satisfy `0 ≤ startIndex ≤ endIndex ≤ totalItems` and
`endIndex - startIndex ≤ itemsPerPage`, where the indices follow the
stated formulas. -/
theorem indices_invariant (s : PaginationState)
    (hti : 0 ≤ s.totalItems) (hipp : 1 ≤ s.itemsPerPage)
    (hlo : 1 ≤ s.currentPage) (hhi : s.currentPage ≤ totalPages s) :
    0 ≤ startIndex s ∧ startIndex s ≤ endIndex s ∧ endIndex s ≤ s.totalItems ∧
    endIndex s - startIndex s ≤ s.itemsPerPage ∧
    startIndex s = (s.currentPage - 1) * s.itemsPerPage ∧
    endIndex s = min (startIndex s + s.itemsPerPage) s.totalItems := by
  obtain ⟨_, hlast⟩ := totalPages_mul_bounds s hti hipp
  have h0 : 0 ≤ startIndex s := mul_nonneg (by omega) (by omega)
  have hstart_le : startIndex s ≤ s.totalItems := by
    have h1 : s.currentPage - 1 ≤ totalPages s - 1 := by omega
    have h2 : (s.currentPage - 1) * s.itemsPerPage ≤
        (totalPages s - 1) * s.itemsPerPage :=
      mul_le_mul_of_nonneg_right h1 (by omega)
    calc startIndex s = (s.currentPage - 1) * s.itemsPerPage := rfl
      _ ≤ (totalPages s - 1) * s.itemsPerPage := h2
      _ ≤ s.totalItems := hlast
  have hend_le : endIndex s ≤ startIndex s + s.itemsPerPage :=
    min_le_left _ _
  refine ⟨h0, ?_, min_le_right _ _, by linarith [hend_le], rfl, rfl⟩
  exact le_min (by linarith) hstart_le

/-- C4 witness: the demo configuration on its last page,
`⟨47, 10, 5⟩`, where the slice is `[40, 47)` with 7 items. -/
theorem indices_invariant_witness :
    0 ≤ startIndex ⟨47, 10, 5⟩ ∧
    startIndex ⟨47, 10, 5⟩ ≤ endIndex ⟨47, 10, 5⟩ ∧
    endIndex ⟨47, 10, 5⟩ ≤ (47 : ℤ) ∧
    endIndex ⟨47, 10, 5⟩ - startIndex ⟨47, 10, 5⟩ ≤ (10 : ℤ) ∧
    startIndex ⟨47, 10, 5⟩ = ((5 : ℤ) - 1) * 10 ∧
    endIndex ⟨47, 10, 5⟩ = min (startIndex ⟨47, 10, 5⟩ + 10) 47 :=
  indices_invariant ⟨47, 10, 5⟩ (by decide) (by decide) (by decide) (by decide)

/-- C5: `setPage p` assigns `currentPage = max(1, min(p, totalPages))`
for any integer `p` (the operation is total: out-of-range input is
silently clamped, never rejected), and it is idempotent: applying it
twice with the same `p` yields the same state as applying it once. -/
theorem setPage_clamps_and_idempotent (s : PaginationState) (p : ℤ) :
    (setPage s p).currentPage = max 1 (min p (totalPages s)) ∧
    setPage (setPage s p) p = setPage s p :=
  ⟨rfl, rfl⟩

/-- C8: when the props change so that `currentPage` exceeds the new
`totalPages`, the re-render leaves `currentPage` untouched (no
automatic re-clamp), while the derived values still follow their
formulas and describe an empty, out-of-range slice: `startIndex` is at
or past `totalItems`, `endIndex` is capped at `totalItems`,
`itemsOnCurrentPage ≤ 0`, and `canNextPage` is false. -/
theorem props_change_no_reclamp (s : PaginationState) (ti ipp : ℤ)
    (hti : 0 ≤ ti) (hipp : 1 ≤ ipp)
    (hover : totalPages (updateInputs s ti ipp) < (updateInputs s ti ipp).currentPage) :
    (updateInputs s ti ipp).currentPage = s.currentPage ∧
    ti ≤ startIndex (updateInputs s ti ipp) ∧
    endIndex (updateInputs s ti ipp) = ti ∧
    itemsOnCurrentPage (updateInputs s ti ipp) ≤ 0 ∧
    canNextPage (updateInputs s ti ipp) = false := by
  set s2 := updateInputs s ti ipp with hs2
  have hti2 : s2.totalItems = ti := rfl
  have hipp2 : s2.itemsPerPage = ipp := rfl
  obtain ⟨hcover, _⟩ := totalPages_mul_bounds s2 (by omega) (by omega)
  have h1 : 1 ≤ totalPages s2 := one_le_totalPages s2
  have hstart : ti ≤ startIndex s2 := by
    have h2 : totalPages s2 ≤ s2.currentPage - 1 := by omega
    have h3 : totalPages s2 * s2.itemsPerPage ≤
        (s2.currentPage - 1) * s2.itemsPerPage :=
      mul_le_mul_of_nonneg_right h2 (by omega)
    calc ti = s2.totalItems := rfl
      _ ≤ totalPages s2 * s2.itemsPerPage := hcover
      _ ≤ (s2.currentPage - 1) * s2.itemsPerPage := h3
      _ = startIndex s2 := rfl
  have hend : endIndex s2 = ti := by
    unfold endIndex
    rw [hti2]
    exact min_eq_right (by linarith)
  refine ⟨rfl, hstart, hend, ?_, ?_⟩
  · unfold itemsOnCurrentPage
    rw [hend]
    linarith
  · unfold canNextPage
    simp only [decide_eq_false_iff_not]
    omega

/-- C8 witness: the demo state on page 5 of 47 items, after the item
count shrinks to 0: `totalPages` drops to 1 yet `currentPage` stays 5
and the derived slice is empty. -/
theorem props_change_no_reclamp_witness :
    (updateInputs ⟨47, 10, 5⟩ 0 10).currentPage = (5 : ℤ) ∧
    (0 : ℤ) ≤ startIndex (updateInputs ⟨47, 10, 5⟩ 0 10) ∧
    endIndex (updateInputs ⟨47, 10, 5⟩ 0 10) = (0 : ℤ) ∧
    itemsOnCurrentPage (updateInputs ⟨47, 10, 5⟩ 0 10) ≤ 0 ∧
    canNextPage (updateInputs ⟨47, 10, 5⟩ 0 10) = false :=
  props_change_no_reclamp ⟨47, 10, 5⟩ 0 10 (by decide) (by decide) (by decide)

/-- C9: `nextPage` is a no-op (the whole state is unchanged) when
`currentPage = totalPages` and increments `currentPage` by exactly 1
when `currentPage < totalPages`; `prevPage` is a no-op when
`currentPage = 1` and decrements by exactly 1 when `currentPage > 1`. -/
theorem nextPage_prevPage_boundary (s : PaginationState) :
    (s.currentPage = totalPages s → nextPage s = s) ∧
    (s.currentPage < totalPages s →
      nextPage s = { s with currentPage := s.currentPage + 1 }) ∧
    (s.currentPage = 1 → prevPage s = s) ∧
    (1 < s.currentPage → prevPage s = { s with currentPage := s.currentPage - 1 }) := by
  refine ⟨?_, ?_, ?_, ?_⟩
  · intro h
    have hc : canNextPage s = false := by
      unfold canNextPage
      simp only [decide_eq_false_iff_not]
      omega
    simp [nextPage, hc]
  · intro h
    have hc : canNextPage s = true := by
      unfold canNextPage
      simpa using h
    simp [nextPage, hc]
  · intro h
    have hc : canPrevPage s = false := by
      unfold canPrevPage
      simp only [decide_eq_false_iff_not]
      omega
    simp [prevPage, hc]
  · intro h
    have hc : canPrevPage s = true := by
      unfold canPrevPage
      simpa using h
    simp [prevPage, hc]

/-- C9 witness: on the 47-item demo, `nextPage` on page 5 of 5 is a
no-op, `nextPage` on page 2 goes to page 3, and `prevPage` on page 1
is a no-op. -/
theorem nextPage_prevPage_boundary_witness :
    nextPage ⟨47, 10, 5⟩ = ⟨47, 10, 5⟩ ∧
    nextPage ⟨47, 10, 2⟩ = ⟨47, 10, 3⟩ ∧
    prevPage ⟨47, 10, 1⟩ = ⟨47, 10, 1⟩ :=
  ⟨(nextPage_prevPage_boundary ⟨47, 10, 5⟩).1 (by decide),
   (nextPage_prevPage_boundary ⟨47, 10, 2⟩).2.1 (by decide),
   (nextPage_prevPage_boundary ⟨47, 10, 1⟩).2.2.1 (by decide)⟩

end UsePagination

namespace UseDebounce

/-- The cleanup never touches the value cell, the saved handle, the id
counter or the mount flag. -/
lemma clearHandler_fields {α : Type} (w : DebounceWorld α) :
    (clearHandler w).debouncedValue = w.debouncedValue ∧
    (clearHandler w).handler = w.handler ∧
    (clearHandler w).nextId = w.nextId ∧
    (clearHandler w).mounted = w.mounted := by
  cases hh : w.handler <;> simp [clearHandler, hh]

/-- Under the invariant, `clearTimeout(handler)` empties the queue:
every live timer carries the saved handle's id, and the filter removes
exactly those. -/
lemma clearHandler_timers_nil {α : Type} (w : DebounceWorld α) (hw : TimerInv w) :
    (clearHandler w).timers = [] := by
  obtain ⟨hall, -, -⟩ := hw
  unfold clearHandler
  cases hh : w.handler with
  | none =>
    cases ht : w.timers with
    | nil => simp [hh, ht]
    | cons a l =>
      exfalso
      have := hall a (by rw [ht]; exact List.mem_cons_self a l)
      rw [hh] at this
      simp at this
  | some h =>
    simp only []
    apply List.filter_eq_nil_iff.mpr
    intro a ha
    have := hall a ha
    rw [hh] at this
    simp only [Option.some.injEq] at this
    simp [this]

/-- The initial render satisfies the invariant: no timer exists. -/
lemma timerInv_initialRender (α : Type) (v : α) : TimerInv (initialRender α v) := by
  refine ⟨?_, ?_, ?_⟩ <;> simp [initialRender, TimerInv]

/-- One step preserves the cancellation invariant, whatever the event:
an effect run cancels the old timer before scheduling the new one, a
firing timer is consumed, and unmount cancels outright. -/
lemma timerInv_step {α : Type} (w : DebounceWorld α) (e : DebounceEv α)
    (hw : TimerInv w) : TimerInv (step w e) := by
  obtain ⟨hall, hlen, hunm⟩ := hw
  cases e with
  | change t v d =>
    by_cases hm : w.mounted = true
    · have hnil : (clearHandler w).timers = [] :=
        clearHandler_timers_nil w ⟨hall, hlen, hunm⟩
      obtain ⟨-, -, -, hmt⟩ := clearHandler_fields w
      simp only [step, hm, if_true]
      refine ⟨?_, ?_, ?_⟩
      · intro e he
        rw [hnil] at he
        simp only [List.nil_append, List.mem_singleton] at he
        rw [he]
      · rw [hnil]
        simp
      · intro hfalse
        rw [hmt, hm] at hfalse
        exact absurd hfalse (by simp)
    · have hm2 : w.mounted = false := by simpa using hm
      simp only [step, hm2]
      simp only [Bool.false_eq_true, if_false]
      exact ⟨hall, hlen, hunm⟩
  | fire id =>
    cases hf : w.timers.find? (fun e => decide (e.1 = id)) with
    | none =>
      simp only [step, hf]
      exact ⟨hall, hlen, hunm⟩
    | some e =>
      simp only [step, hf]
      refine ⟨?_, ?_, ?_⟩
      · intro x hx
        exact hall x (List.mem_filter.mp hx).1
      · exact le_trans (List.length_filter_le _ _) hlen
      · intro hfalse
        rw [hunm hfalse]
        rfl
  | unmount =>
    by_cases hm : w.mounted = true
    · have hnil : (clearHandler w).timers = [] :=
        clearHandler_timers_nil w ⟨hall, hlen, hunm⟩
      simp only [step, hm, if_true]
      refine ⟨?_, ?_, ?_⟩
      · intro e he
        rw [hnil] at he
        exact absurd he (List.not_mem_nil e)
      · rw [hnil]
        simp
      · intro _
        exact hnil
    · have hm2 : w.mounted = false := by simpa using hm
      simp only [step, hm2]
      simp only [Bool.false_eq_true, if_false]
      exact ⟨hall, hlen, hunm⟩

/-- The invariant holds along any run from a state satisfying it. -/
lemma timerInv_run {α : Type} (w : DebounceWorld α) (es : List (DebounceEv α))
    (hw : TimerInv w) : TimerInv (run w es) := by
  induction es generalizing w with
  | nil => exact hw
  | cons e es ih => exact ih _ (timerInv_step w e hw)

/-- Running a concatenation of event lists runs them in sequence. -/
lemma run_append {α : Type} (w : DebounceWorld α) (es1 es2 : List (DebounceEv α)) :
    run w (es1 ++ es2) = run (run w es1) es2 := by
  induction es1 generalizing w with
  | nil => rfl
  | cons e es ih => exact ih (step w e)

/-- An unmounted instance with an empty queue is frozen: no event of
any kind changes it (effects no longer run, and there is no live timer
left to fire). -/
lemma step_frozen {α : Type} (w : DebounceWorld α) (hm : w.mounted = false)
    (ht : w.timers = []) (e : DebounceEv α) : step w e = w := by
  cases e with
  | change t v d =>
    simp only [step, hm]
    simp
  | fire id =>
    simp only [step, ht]
    rfl
  | unmount =>
    simp only [step, hm]
    simp

/-- A frozen instance stays frozen along any further event list. -/
lemma run_frozen {α : Type} (w : DebounceWorld α) (hm : w.mounted = false)
    (ht : w.timers = []) (es : List (DebounceEv α)) : run w es = w := by
  induction es with
  | nil => rfl
  | cons e es ih =>
    unfold run
    rw [step_frozen w hm ht e]
    exact ih

/-- Unmounting an invariant-satisfying state cancels the pending timer
and drops the mount flag. -/
lemma step_unmount_spec {α : Type} (w : DebounceWorld α) (hw : TimerInv w) :
    (step w DebounceEv.unmount).mounted = false ∧
    (step w DebounceEv.unmount).timers = [] := by
  by_cases hm : w.mounted = true
  · have hnil : (clearHandler w).timers = [] := clearHandler_timers_nil w hw
    simp only [step, hm, if_true]
    exact ⟨by simp, hnil⟩
  · have hm2 : w.mounted = false := by simpa using hm
    simp only [step, hm2]
    simp only [Bool.false_eq_true, if_false]
    exact ⟨hm2, hw.2.2 hm2⟩

end UseDebounce

namespace UseDebounce

/-- C6: per tracker instance, at most one scheduled callback is ever
outstanding: along every event interleaving from the initial render,
the live-timer queue holds at most one entry, because every effect run
cancels the previously scheduled callback when it schedules the new
one. -/
theorem at_most_one_pending_timer (α : Type) (v : α) (es : List (DebounceEv α)) :
    (run (initialRender α v) es).timers.length ≤ 1 :=
  (timerInv_run (initialRender α v) es (timerInv_initialRender α v)).2.1

/-- C7: unmounting cancels the pending callback — after the unmount
event the live-timer queue is empty — and thereafter the instance
never changes again: whatever later events arrive (including fire
attempts for the canceled timer ids), the whole state, in particular
`debouncedValue`, is exactly the state at unmount. -/
theorem unmount_cancels_and_freezes (α : Type) (v : α)
    (es es2 : List (DebounceEv α)) :
    (run (initialRender α v) (es ++ [DebounceEv.unmount])).timers = [] ∧
    run (run (initialRender α v) (es ++ [DebounceEv.unmount])) es2 =
      run (initialRender α v) (es ++ [DebounceEv.unmount]) := by
  have hinv : TimerInv (run (initialRender α v) es) :=
    timerInv_run (initialRender α v) es (timerInv_initialRender α v)
  have happ : run (initialRender α v) (es ++ [DebounceEv.unmount]) =
      step (run (initialRender α v) es) DebounceEv.unmount := by
    rw [run_append]
    rfl
  obtain ⟨hm, ht⟩ := step_unmount_spec (run (initialRender α v) es) hinv
  rw [happ]
  exact ⟨ht, run_frozen _ hm ht es2⟩

/-- C10: on the very first invocation the hook synchronously returns
the input value itself: `useState<T>(value)` seeds the debounced state
with the initial input, not a sentinel.  Even after the mount effect
runs (scheduling the timer for `t + d`), the returned value is still
that initial input until the timer fires. -/
theorem initial_debounced_value (α : Type) (v : α) (t d : ℕ) :
    (initialRender α v).debouncedValue = v ∧
    (step (initialRender α v) (DebounceEv.change t v d)).debouncedValue = v ∧
    (step (initialRender α v) (DebounceEv.change t v d)).timers = [(0, t + d, v)] := by
  refine ⟨rfl, ?_, ?_⟩ <;> simp [step, initialRender, clearHandler]

end UseDebounce

namespace UseDebounce

/-- Core settling lemma: starting from a state whose pending timer was
scheduled at `t0` (so it fires at `t0 + d`), a nonempty burst of
changes each strictly within `d` of the previous one never lets a
timer fire — no observation is made, `debouncedValue` is untouched —
and leaves exactly the last change pending, scheduled for its time
plus `d`. -/
lemma runChanges_within_chain {α : Type} (d : ℕ) :
    ∀ (changes : List (ℕ × α)) (s : DebounceState α) (t0 : ℕ) (vv : α)
      (hne : changes ≠ []),
      s.pendingTimer = some (t0 + d, vv) →
      withinChain t0 d changes = true →
      runChanges s d changes =
        ({ debouncedValue := s.debouncedValue,
           pendingTimer := some ((changes.getLast hne).1 + d, (changes.getLast hne).2) }, []) := by
  intro changes
  induction changes with
  | nil =>
    intro s t0 vv hne _ _
    exact absurd rfl hne
  | cons c cs ih =>
    intro s t0 vv hne hp hch
    unfold withinChain at hch
    simp only [Bool.and_eq_true, decide_eq_true_eq] at hch
    obtain ⟨⟨h1, h2⟩, h3⟩ := hch
    have hfire : fireDue s c.1 = (s, []) := by
      unfold fireDue
      rw [hp]
      simp only []
      rw [if_neg (by omega)]
    have happly : applyChange s c.1 c.2 d =
        (⟨s.debouncedValue, some (c.1 + d, c.2)⟩, []) := by
      unfold applyChange
      rw [hfire]
    cases cs with
    | nil =>
      unfold runChanges
      rw [happly]
      rfl
    | cons c2 cs2 =>
      have hne2 : c2 :: cs2 ≠ [] := List.cons_ne_nil c2 cs2
      have ihres := ih ⟨s.debouncedValue, some (c.1 + d, c.2)⟩ c.1 c.2 hne2 rfl h3
      unfold runChanges
      rw [happly]
      simp only [ihres]
      rw [List.getLast_cons hne2]
      rfl

/-- C2: for a nonempty burst of changes each strictly within `delay`
of the previous one (the mount at `t0` anchoring the first), no timer
fires during the burst (empty observation list, `debouncedValue` still
the initial value — no intermediate value of the burst ever becomes
the debounced value), and once quiet, exactly one observation occurs:
the LAST value of the burst, at time `tLast + delay`, i.e. no earlier
than `delay` after the last change. -/
theorem debounce_only_last_value_settles (α : Type) (t0 d : ℕ) (v0 : α)
    (changes : List (ℕ × α)) (hne : changes ≠ [])
    (hch : withinChain t0 d changes = true) :
    (runChanges (initDebounce t0 v0 d) d changes).2 = [] ∧
    (runChanges (initDebounce t0 v0 d) d changes).1.debouncedValue = v0 ∧
    quiesce (runChanges (initDebounce t0 v0 d) d changes).1 =
      ({ debouncedValue := (changes.getLast hne).2, pendingTimer := none },
       [((changes.getLast hne).1 + d, (changes.getLast hne).2)]) := by
  have h := runChanges_within_chain d changes (initDebounce t0 v0 d) t0 v0 hne rfl hch
  rw [h]
  exact ⟨rfl, rfl, rfl⟩

/-- C2 witness: mount at time 0 with value 0 and delay 5; changes to
10 at time 1 and to 20 at time 2.  Nothing is observed during the
burst, the debounced value stays 0, and quiescing observes exactly 20
once, at time 7 = 2 + 5. -/
theorem debounce_only_last_value_settles_witness :
    (runChanges (initDebounce 0 (0 : ℕ) 5) 5 [(1, 10), (2, 20)]).2 = [] ∧
    (runChanges (initDebounce 0 (0 : ℕ) 5) 5 [(1, 10), (2, 20)]).1.debouncedValue = 0 ∧
    quiesce (runChanges (initDebounce 0 (0 : ℕ) 5) 5 [(1, 10), (2, 20)]).1 =
      ({ debouncedValue := 20, pendingTimer := none }, [(7, 20)]) :=
  debounce_only_last_value_settles ℕ 0 5 0 [(1, 10), (2, 20)] (by decide) (by decide)

end UseDebounce
